import Mathlib

/-!
Verification of the vimeo-event-downloader core (src/main.rs) against its
natural-language specification.

The Rust program is shallowly embedded below:

* JSON documents (serde_json values) become the inductive type `Json`;
  the loosely-typed index operator and the as_str/as_u64/as_f64/as_array
  accessors are embedded as total Lean functions with `Option` results.
* A panic arising from `.unwrap()` on a failed accessor is modelled as the
  failure branch of the embedded function; following the spec's error
  taxonomy these failures are surfaced as the `Err.invalidFormat` label.
* Network requests are abstracted by a caller-supplied function from a URL
  string to the response body (a byte list) or a transport error; file
  output is modelled as the list of bytes written so far.
* base64 (crate base64, engine STANDARD_NO_PAD) and relative URL
  resolution (crate url) are library dependencies whose relevant behaviour
  is modelled here: standard-alphabet no-padding base64 with canonical
  trailing-bit checking, and WHATWG/RFC 3986 style relative-reference
  resolution for hierarchical http(s) URLs.
* Machine integers (u64 byte counts and sizes) are modelled as `Nat`; no
  arithmetic in the program can overflow a u64 observably, and no claim
  depends on wrap-around behaviour.
-/

/-- The error taxonomy of the spec (section 7).  The Rust code uses eyre
errors and panics; each failure point of the embedded code is labelled with
the taxonomy category the spec assigns to it.  `integrity` carries the
observed and the expected byte count, as the code's error message does. -/
inductive Err where
  | transport
  | notFound
  | invalidFormat
  | integrity (observed : Nat) (expected : Nat)
  | urlError
deriving DecidableEq

/-- The user-visible message attached to each error by the code
(src/main.rs lines 55 and 150-152; transport and URL errors render their
library messages, abstracted here). -/
def errMsg : Err → String
  | .transport => "transport error"
  | .notFound => "Did not find video config url!"
  | .invalidFormat => "invalid format"
  | .integrity r e =>
      "Invalid byte count! Read=" ++ toString r ++ ", expected=" ++ toString e
  | .urlError => "url parse error"

/-- A JSON number (serde_json Number).  `uint n` is the u64 arm (by
construction of JSON parsing, n < 2^64); `int i` is the negative i64 arm;
`float r` abstracts the f64 arm by its decimal rendering, since no claim
inspects a float's numeric value. -/
inductive JNum where
  | uint (n : Nat)
  | int (i : Int)
  | float (repr : String)
deriving DecidableEq

/-- A JSON document (serde_json Value).  Objects are association lists
with distinct keys (serde_json maps). -/
inductive Json where
  | null
  | bool (b : Bool)
  | num (n : JNum)
  | str (s : String)
  | arr (xs : List Json)
  | obj (kvs : List (String × Json))

namespace Json

/-- The index operator value[key] of serde_json: field lookup on an
object, and the Null value on a missing key or a non-object. -/
def get (j : Json) (k : String) : Json :=
  match j with
  | .obj kvs =>
    match kvs.find? (fun p => p.1 == k) with
    | some p => p.2
    | none => .null
  | _ => .null

/-- Value::as_str. -/
def asStr : Json → Option String
  | .str s => some s
  | _ => none

/-- Value::as_u64: only the non-negative integer arm of Number converts. -/
def asU64 : Json → Option Nat
  | .num (.uint n) => some n
  | _ => none

/-- Value::as_f64: any JSON number converts (possibly lossily); the
abstract number itself is returned since no claim inspects the value. -/
def asF64 : Json → Option JNum
  | .num n => some n
  | _ => none

/-- Value::as_array. -/
def asArr : Json → Option (List Json)
  | .arr xs => some xs
  | _ => none

/-- Escape a string the way serde_json Display does for the characters
that matter here (quote, backslash, control shortcuts); other characters
are passed through. -/
def escapeChar (c : Char) : List Char :=
  if c = '"' then ['\\', '"']
  else if c = '\\' then ['\\', '\\']
  else if c = '\n' then ['\\', 'n']
  else if c = '\t' then ['\\', 't']
  else if c = '\r' then ['\\', 'r']
  else [c]

/-- Value::to_string (compact serde_json rendering).  Used by the code
only to stringify the id and codecs fields, which no claim inspects. -/
def render : Json → String
  | .null => "null"
  | .bool true => "true"
  | .bool false => "false"
  | .num (.uint n) => toString n
  | .num (.int i) => toString i
  | .num (.float r) => r
  | .str s => "\"" ++ String.mk (s.data.flatMap escapeChar) ++ "\""
  | .arr _ => "[...]"
  | .obj _ => "<object>"

end Json

/-! ## base64, engine general_purpose::STANDARD_NO_PAD

The standard alphabet, no padding accepted, and canonical (zero) trailing
bits required on decode — the crate's defaults for this engine. -/

/-- The n-th character of the standard base64 alphabet (A-Z a-z 0-9 + /). -/
def b64Char (n : Nat) : Char :=
  if n < 26 then Char.ofNat (65 + n)
  else if n < 52 then Char.ofNat (71 + n)
  else if n < 62 then Char.ofNat (n - 4)
  else if n = 62 then '+' else '/'

/-- The decode table: the position of a character in the standard
alphabet, none for a character outside the alphabet (including '='). -/
def b64Index (c : Char) : Option Nat :=
  (List.range 64).find? (fun k => b64Char k == c)

/-- Translate every character through the decode table; none if any
character is outside the alphabet. -/
def charsToSex : List Char → Option (List Nat)
  | [] => some []
  | c :: rest =>
    match b64Index c, charsToSex rest with
    | some n, some t => some (n :: t)
    | _, _ => none

/-- Pack sextets into bytes, 4-to-3 per block; a final block of 2 or 3
sextets yields 1 or 2 bytes and must have zero trailing bits (the engine
rejects non-canonical finals); a final block of 1 sextet is an invalid
length. -/
def sexToBytes : List Nat → Option (List Nat)
  | [] => some []
  | [_] => none
  | [a, b] => if b % 16 = 0 then some [a * 4 + b / 16] else none
  | [a, b, c] =>
      if c % 4 = 0 then some [a * 4 + b / 16, b % 16 * 16 + c / 4] else none
  | a :: b :: c :: d :: rest =>
      (sexToBytes rest).map fun t =>
        (a * 4 + b / 16) :: (b % 16 * 16 + c / 4) :: (c % 4 * 64 + d) :: t

/-- Unpack bytes into sextets, 3-to-4 per block; a final block of 1 or 2
bytes yields 2 or 3 sextets with zero trailing bits. -/
def bytesToSex : List Nat → List Nat
  | [] => []
  | [x] => [x / 4, x % 4 * 16]
  | [x, y] => [x / 4, x % 4 * 16 + y / 16, y % 16 * 4]
  | x :: y :: z :: rest =>
      x / 4 :: (x % 4 * 16 + y / 16) :: (y % 16 * 4 + z / 64) :: z % 64 ::
        bytesToSex rest

/-- STANDARD_NO_PAD.decode on a character list. -/
def b64decode (s : List Char) : Option (List Nat) :=
  match charsToSex s with
  | some ss => sexToBytes ss
  | none => none

/-- STANDARD_NO_PAD.encode on a byte list. -/
def b64encode (bs : List Nat) : List Char :=
  (bytesToSex bs).map b64Char

/-- STANDARD_NO_PAD.decode on a string. -/
def b64decodeStr (s : String) : Option (List Nat) :=
  b64decode s.data

/-- STANDARD_NO_PAD.encode producing a string. -/
def b64encodeStr (bs : List Nat) : String :=
  String.mk (b64encode bs)

/-! ## URLs (crate url)

A model of url::Url for the hierarchical scheme://host/path?query URLs
this program handles: Url::parse of an absolute URL, the WHATWG/RFC 3986
relative-reference resolution performed by Url::join, and as_str
serialization.  Non-hierarchical and userinfo/port/fragment features are
outside the inputs this program can meet and are not modelled. -/

structure Url where
  scheme : String
  host : String
  /-- Path segments; a trailing empty segment encodes a trailing slash.
  An empty path serializes as the single empty segment (root slash). -/
  segs : List String
  query : Option String
deriving DecidableEq

/-- Split a path character list at every '/' into its segments. -/
def splitSegs : List Char → List String
  | [] => [""]
  | '/' :: rest => "" :: splitSegs rest
  | c :: rest =>
    match splitSegs rest with
    | [] => [String.mk [c]]
    | s :: t => String.mk (c :: s.data) :: t

/-- Join path segments back with '/' separators. -/
def joinSegs : List String → String
  | [] => ""
  | [s] => s
  | s :: rest => s ++ "/" ++ joinSegs rest

/-- Remove-dot-segments (RFC 3986 section 5.2.4) on a segment list; a
final "." or ".." leaves a trailing slash.  The accumulator holds the
output segments in reverse. -/
def normAux (out : List String) : List String → List String
  | [] => out.reverse
  | ["."] => ("" :: out).reverse
  | [".."] => ("" :: out.drop 1).reverse
  | "." :: rest => normAux out rest
  | ".." :: rest => normAux (out.drop 1) rest
  | s :: rest => normAux (s :: out) rest

def normSegs (segs : List String) : List String := normAux [] segs

/-- Split a reference into its path part and optional query part. -/
def splitQuery (cs : List Char) : List Char × Option String :=
  let p := cs.takeWhile (fun c => c != '?')
  match cs.dropWhile (fun c => c != '?') with
  | '?' :: q => (p, some (String.mk q))
  | _ => (p, none)

/-- Url::parse on an absolute hierarchical URL: scheme "://" host, then an
optional /path and ?query.  Anything without the "://" separator (in
particular every relative reference) is rejected, as Url::parse rejects
relative URLs without a base. -/
def urlParse (s : String) : Option Url :=
  let cs := s.data
  let scheme := cs.takeWhile (fun c => c != ':')
  match cs.dropWhile (fun c => c != ':') with
  | ':' :: '/' :: '/' :: rest =>
    if scheme.isEmpty then none
    else
      let host := rest.takeWhile (fun c => c != '/' && c != '?')
      if host.isEmpty then none
      else
        match rest.dropWhile (fun c => c != '/' && c != '?') with
        | [] => some ⟨String.mk scheme, String.mk host, [""], none⟩
        | '?' :: q =>
            some ⟨String.mk scheme, String.mk host, [""], some (String.mk q)⟩
        | _ :: afterSlash =>
            let (p, q) := splitQuery afterSlash
            some ⟨String.mk scheme, String.mk host, splitSegs p, q⟩
  | _ => none

/-- Url::join — resolve a reference against a base URL (RFC 3986
section 5.2): an absolute reference replaces the base; a
network-path ("//...") reference keeps only the scheme; an absolute-path
reference keeps scheme and host; a query-only reference keeps the base
path; a relative path is merged onto the base path with its last segment
removed, then dot segments are removed. -/
def urlJoin (base : Url) (ref : String) : Option Url :=
  match urlParse ref with
  | some u => some u
  | none =>
    match ref.data with
    | [] => some base
    | '/' :: '/' :: rest => urlParse (base.scheme ++ "://" ++ String.mk rest)
    | '/' :: rest =>
      let (p, q) := splitQuery rest
      some ⟨base.scheme, base.host, normSegs (splitSegs p), q⟩
    | '?' :: q => some ⟨base.scheme, base.host, base.segs, some (String.mk q)⟩
    | cs =>
      let (p, q) := splitQuery cs
      some ⟨base.scheme, base.host,
            normSegs (base.segs.dropLast ++ splitSegs p), q⟩

/-- Url serialization (as_str / to_string): the path always begins with a
slash. -/
def urlRender (u : Url) : String :=
  u.scheme ++ "://" ++ u.host ++ "/" ++ joinSegs u.segs ++
    (match u.query with
     | none => ""
     | some q => "?" ++ q)

/-! ## PageConfigResolver (get_config_url, src/main.rs lines 45-60)

The HTTP fetch is abstracted away: the embedded function receives the
response body.  The regex data-config-url="([^"]+)" is embedded as a
leftmost-match scan: at each start position the fixed literal must match,
followed by at least one non-quote character and a closing quote; on
failure the scan advances one character. -/

/-- The fixed literal part of the pattern, data-config-url=" . -/
def markerLit : List Char := ("data-config-url=" ++ "\"").data

/-- Strip a literal prefix, returning the remainder when it matches. -/
def dropLit : List Char → List Char → Option (List Char)
  | [], s => some s
  | _ :: _, [] => none
  | l :: ls, c :: cs => if c = l then dropLit ls cs else none

/-- Try the full pattern anchored at the head of the list: the literal,
then the capture group ([^"]+, at least one non-quote character), then the
closing quote.  Returns the captured value. -/
def matchHead (s : List Char) : Option (List Char) :=
  match dropLit markerLit s with
  | none => none
  | some rest =>
    let val := rest.takeWhile (fun c => c != '"')
    match rest.dropWhile (fun c => c != '"') with
    | '"' :: _ => if val.isEmpty then none else some val
    | _ => none

/-- Leftmost match of the pattern: try every start position from the
left, returning the first successful capture. -/
def findConfigUrl : List Char → Option (List Char)
  | [] => none
  | c :: rest =>
    match matchHead (c :: rest) with
    | some val => some val
    | none => findConfigUrl rest

/-- Models html_escape::decode_html_entities restricted to the basic
named and numeric entities exercised here (the library additionally knows
the full HTML named-entity table); an unrecognized ampersand sequence is
passed through unchanged, as the library does. -/
def decodeHtmlEntities : List Char → List Char
  | [] => []
  | '&' :: 'a' :: 'm' :: 'p' :: ';' :: rest => '&' :: decodeHtmlEntities rest
  | '&' :: 'l' :: 't' :: ';' :: rest => '<' :: decodeHtmlEntities rest
  | '&' :: 'g' :: 't' :: ';' :: rest => '>' :: decodeHtmlEntities rest
  | '&' :: 'q' :: 'u' :: 'o' :: 't' :: ';' :: rest =>
      '"' :: decodeHtmlEntities rest
  | '&' :: '#' :: '3' :: '9' :: ';' :: rest =>
      Char.ofNat 39 :: decodeHtmlEntities rest
  | '&' :: '#' :: 'x' :: '2' :: '7' :: ';' :: rest =>
      Char.ofNat 39 :: decodeHtmlEntities rest
  | c :: rest => c :: decodeHtmlEntities rest

/-- get_config_url, the pure part after the HTTP fetch (src/main.rs lines
52-59): first regex match, entity-decoded; the NotFound error when the
pattern does not match.  (The "Invalid capture group!" branch of the code
is unreachable: on any match, capture group 1 is present.) -/
def get_config_url (body : List Char) : Except Err (List Char) :=
  match findConfigUrl body with
  | some v => .ok (decodeHtmlEntities v)
  | none => .error .notFound

/-! ## Data model and ManifestLocator / ManifestParser -/

/-- One segment of a variant: relative path and declared byte size
(struct Segment, src/main.rs lines 83-86). -/
structure Segment where
  path : String
  size : Nat
deriving DecidableEq

/-- One variant of the video (struct VideoInfo, src/main.rs lines 71-81).
Byte vectors are byte lists; the f64 duration is the abstract JSON
number. -/
structure VideoInfo where
  base_url : String
  id : String
  codecs : String
  bitrate : Nat
  duration : JNum
  width : Nat
  height : Nat
  init_segment : List Nat
  segments : List Segment
deriving DecidableEq

/-- get_master_url, the pure part after fetching the configuration JSON
(src/main.rs lines 62-69): navigate request.files.dash, read default_cdn
as a string, look it up in cdns, read that descriptor's url as a string.
The two .unwrap() panics on a failed as_str are the InvalidFormat
failures. -/
def get_master_url (doc : Json) : Except Err String :=
  let dash_config := ((doc.get "request").get "files").get "dash"
  match (dash_config.get "default_cdn").asStr with
  | none => .error .invalidFormat
  | some default_cdn =>
    match (((dash_config.get "cdns").get default_cdn).get "url").asStr with
    | none => .error .invalidFormat
    | some u => .ok u

/-- The manifest URL the configuration document designates: the url field
of the endpoint descriptor keyed, in the cdns mapping, by the string
value of default_cdn.  Spec-side description used to state claim C3. -/
def designatedManifestUrl (doc : Json) : Option String :=
  let dash_config := ((doc.get "request").get "files").get "dash"
  (dash_config.get "default_cdn").asStr.bind fun default_cdn =>
    (((dash_config.get "cdns").get default_cdn).get "url").asStr

/-- The segment list extraction inside extract_video_info (src/main.rs
lines 124-132): each entry needs a url string and a size u64; the first
failing entry panics (none). -/
def readSegments : List Json → Option (List Segment)
  | [] => some []
  | s :: rest =>
    match (s.get "url").asStr, (s.get "size").asU64, readSegments rest with
    | some u, some n, some t => some (⟨u, n⟩ :: t)
    | _, _, _ => none

/-- extract_video_info (src/main.rs lines 112-134) as an Option-valued
function: any .unwrap() panic (missing field, wrong type, base64 decode
failure, bad segment entry) is none.  Field reads appear in the source
order: init_segment.as_str first, then bitrate, duration, width, height,
the base64 decode, and the segments. -/
def extractVideoInfoO (value : Json) (base_url : Url) : Option VideoInfo :=
  match (value.get "init_segment").asStr with
  | none => none
  | some init_b64 =>
    match (value.get "bitrate").asU64, (value.get "duration").asF64,
          (value.get "width").asU64, (value.get "height").asU64 with
    | some bitrate, some duration, some width, some height =>
      match b64decodeStr init_b64 with
      | none => none
      | some init =>
        match (value.get "segments").asArr with
        | none => none
        | some segsJ =>
          match readSegments segsJ with
          | none => none
          | some segs =>
            some ⟨urlRender base_url, (value.get "id").render,
                  (value.get "codecs").render, bitrate, duration, width,
                  height, init, segs⟩
    | _, _, _, _ => none

/-- extract_video_info with the panic surfaced as the InvalidFormat
failure of the spec's taxonomy. -/
def extract_video_info (value : Json) (base_url : Url) :
    Except Err VideoInfo :=
  match extractVideoInfoO value base_url with
  | some i => .ok i
  | none => .error .invalidFormat

/-- The per-variant map-and-collect of get_video_infos (src/main.rs lines
104-107): the first panicking variant aborts the whole run. -/
def extractAll (base : Url) : List Json → Option (List VideoInfo)
  | [] => some []
  | v :: rest =>
    match extractVideoInfoO v base, extractAll base rest with
    | some i, some t => some (i :: t)
    | _, _ => none

/-- get_video_infos, the pure part after fetching the manifest JSON
(src/main.rs lines 98-110): read base_url as a string, parse the manifest
URL (an .unwrap() panic if unparsable), join base_url onto it (a
propagated url ParseError — the one failure here that is not a panic),
read video as an array and extract every variant. -/
def get_video_infos (doc : Json) (master_url : String) :
    Except Err (List VideoInfo) :=
  match (doc.get "base_url").asStr with
  | none => .error .invalidFormat
  | some b =>
    match urlParse master_url with
    | none => .error .invalidFormat
    | some mu =>
      match urlJoin mu b with
      | none => .error .urlError
      | some base =>
        match (doc.get "video").asArr with
        | none => .error .invalidFormat
        | some vids =>
          match extractAll base vids with
          | none => .error .invalidFormat
          | some infos => .ok infos

/-- The selection in main (src/main.rs line 39):
videos.iter().max_by_key(|v| v.width).  Rust's max_by_key folds from the
left and replaces the accumulator whenever the new element's key is
greater than or equal to the accumulator's, so among equal maximal keys
the last element wins. -/
def selStep (acc : Option VideoInfo) (v : VideoInfo) : Option VideoInfo :=
  match acc with
  | none => some v
  | some w => if w.width ≤ v.width then some v else some w

def maxByWidth (l : List VideoInfo) : Option VideoInfo :=
  l.foldl selStep none

/-! ## SegmentedDownloader (download, src/main.rs lines 136-159)

The network is a caller-supplied function from the URL string to a
response body or transport error.  The output file is the byte list
written so far; File::create starts it empty (truncation), and io::copy
appends the whole response body, returning its length as the transferred
count.  The progress bar is recorded as the trace of counter values after
each bar.inc call; the bar's precomputed total is the sum of the declared
segment sizes. -/

deriving instance DecidableEq for Except

/-- Everything observable about one run of the download loop: the final
file contents, the progress-counter trace, and the outcome. -/
structure LoopOut where
  file : List Nat
  trace : List Nat
  result : Except Err Unit
deriving DecidableEq

/-- The for-loop of download (src/main.rs lines 144-155).  Per segment:
resolve the path against the base URL (propagating a join failure), fetch
it, append the body to the file, compare the transferred count against
size + 1 (the code's accepted contract), abort with the integrity error
on mismatch, else advance the progress counter by count - 1. -/
def downloadLoop (fetch : String → Except Err (List Nat)) (base : Url) :
    List Segment → Nat → List Nat → LoopOut
  | [], _, file => ⟨file, [], .ok ()⟩
  | seg :: rest, prog, file =>
    match urlJoin base seg.path with
    | none => ⟨file, [], .error .urlError⟩
    | some u =>
      match fetch (urlRender u) with
      | .error e => ⟨file, [], .error e⟩
      | .ok body =>
        let file2 := file ++ body
        let count := body.length
        if count ≠ seg.size + 1 then
          ⟨file2, [], .error (.integrity count seg.size)⟩
        else
          let prog2 := prog + (count - 1)
          let out := downloadLoop fetch base rest prog2 file2
          ⟨out.file, prog2 :: out.trace, out.result⟩

/-- The progress bar's precomputed total (src/main.rs lines 141-142):
the sum of the declared sizes of the variant's segments; the
initialization block does not contribute. -/
def barTotal (video : VideoInfo) : Nat :=
  (video.segments.map fun s => s.size).sum

/-- download (src/main.rs lines 136-159): create/truncate the file, write
the initialization block, parse the variant's base URL (written before
the parse, as in the code), then run the loop from progress 0. -/
def download (video : VideoInfo)
    (fetch : String → Except Err (List Nat)) : LoopOut :=
  match urlParse video.base_url with
  | none => ⟨video.init_segment, [], .error .urlError⟩
  | some base => downloadLoop fetch base video.segments 0 video.init_segment

/-! ## Concrete documents and runs (the spec's end-to-end scenarios) -/

/-- The spec's configuration-document scenario. -/
def cfgDoc : Json := .obj [("request", .obj [("files", .obj [("dash", .obj
  [("default_cdn", .str "akfire"),
   ("cdns", .obj
     [("akfire", .obj [("url", .str "https://m/manifest.json")])])])])])]

/-- The spec's manifest scenario: one 640x360 variant with one declared
100-byte segment. -/
def vJson : Json := .obj
  [("id", .str "1"), ("codecs", .str "avc1"),
   ("bitrate", .num (.uint 500)), ("duration", .num (.float "10.0")),
   ("width", .num (.uint 640)), ("height", .num (.uint 360)),
   ("init_segment", .str "AAAA"),
   ("segments", .arr
     [.obj [("url", .str "seg1.m4s"), ("size", .num (.uint 100))]])]

def manifestDoc : Json :=
  .obj [("base_url", .str "dash/"), ("video", .arr [vJson])]

/-- The variant the scenario manifest parses to (ids are stringified with
their JSON quotes, as Value::to_string does). -/
def vInfo : VideoInfo :=
  ⟨"https://m/dash/", "\"1\"", "\"avc1\"", 500, .float "10.0", 640, 360,
   [0, 0, 0], [⟨"seg1.m4s", 100⟩]⟩

/-- The resolved base URL of the scenario manifest. -/
def dashBase : Url := ⟨"https", "m", ["dash", ""], none⟩

/-- A transport that answers the scenario's one segment URL with exactly
101 bytes and fails every other URL. -/
def fetch101 : String → Except Err (List Nat) := fun u =>
  if u = "https://m/dash/seg1.m4s" then .ok (List.replicate 101 7)
  else .error .transport

/-- A transport that answers the scenario's one segment URL with exactly
100 bytes — the declared size — and fails every other URL. -/
def fetch100 : String → Except Err (List Nat) := fun u =>
  if u = "https://m/dash/seg1.m4s" then .ok (List.replicate 100 7)
  else .error .transport

/-- A two-segment variant, to observe that the loop halts at the first
rejected segment. -/
def twoSegVideo : VideoInfo :=
  ⟨"https://m/dash/", "\"1\"", "\"avc1\"", 500, .float "10.0", 640, 360,
   [0, 0, 0], [⟨"seg1.m4s", 100⟩, ⟨"seg2.m4s", 50⟩]⟩

/-- A transport for `twoSegVideo`: the first segment transfers exactly
its declared 100 bytes, the second would transfer 51 bytes. -/
def fetchTwo : String → Except Err (List Nat) := fun u =>
  if u = "https://m/dash/seg1.m4s" then .ok (List.replicate 100 7)
  else if u = "https://m/dash/seg2.m4s" then .ok (List.replicate 51 9)
  else .error .transport

/-- The spec's HTML scenario body, with an entity-escaped config URL. -/
def body1 : List Char :=
  ("<div data-config-url=" ++ "\"" ++ "https://x/cfg?a=1&amp;b=2" ++
    "\"" ++ "></div>").data

/-- An HTML body whose only marker has an empty attribute value. -/
def body2 : List Char :=
  ("<div data-config-url=" ++ "\"\"" ++ "></div>").data

/-! ## Claim C3 — ManifestLocator -/

/-- Claim C3: for every configuration document whose cdns mapping
contains a key equal to the string value of default_cdn (with that
descriptor's url a string), get_master_url returns exactly that url; on
any absent or wrongly-shaped traversal step — including a default
identifier missing from cdns — it fails with the InvalidFormat failure
mode and no other. -/
theorem c3_locator_resolves (doc : Json) :
    (∀ u, designatedManifestUrl doc = some u →
      get_master_url doc = .ok u) ∧
    (designatedManifestUrl doc = none →
      get_master_url doc = .error .invalidFormat) := by
  unfold get_master_url designatedManifestUrl
  cases h1 : ((((doc.get "request").get "files").get "dash").get
      "default_cdn").asStr with
  | none => simp [h1]
  | some cdn =>
    cases h2 : (((((doc.get "request").get "files").get "dash").get
        "cdns").get cdn).get "url" |>.asStr with
    | none => simp [h1, h2]
    | some u => simp [h1, h2]

/-- Witness for C3: the spec's scenario document resolves to its manifest
URL, and a document missing the whole traversal fails as InvalidFormat. -/
theorem c3_locator_resolves_witness :
    get_master_url cfgDoc = .ok "https://m/manifest.json" ∧
    get_master_url (Json.obj []) = .error .invalidFormat :=
  ⟨(c3_locator_resolves cfgDoc).1 "https://m/manifest.json" (by decide),
   (c3_locator_resolves (Json.obj [])).2 (by decide)⟩


/-! ## Claim C2 — variant selection -/

/-- The largest frame width occurring in a variant list. -/
def maxWidthOf (l : List VideoInfo) : Nat :=
  l.foldr (fun v m => max v.width m) 0

/-- Spec-side description of a latest-occurrence maximal-width choice:
the first element of the reversed list whose width is the maximal
width. -/
def lastMaxSpec (l : List VideoInfo) : Option VideoInfo :=
  l.reverse.find? (fun v => v.width == maxWidthOf l)

theorem foldr_max_init (l : List VideoInfo) (a : Nat) :
    l.foldr (fun v m => max v.width m) a = max (maxWidthOf l) a := by
  induction l with
  | nil => simp [maxWidthOf]
  | cons v t ih => simp [maxWidthOf, List.foldr_cons, ih, Nat.max_assoc]

theorem maxWidthOf_append (l : List VideoInfo) (v : VideoInfo) :
    maxWidthOf (l ++ [v]) = max (maxWidthOf l) v.width := by
  unfold maxWidthOf
  rw [List.foldr_append]
  simp only [List.foldr_cons, List.foldr_nil]
  rw [foldr_max_init l (max v.width 0)]
  simp [maxWidthOf, Nat.max_zero]

theorem foldl_selStep_some (l : List VideoInfo) :
    ∀ w : VideoInfo, ∃ u, l.foldl selStep (some w) = some u := by
  induction l with
  | nil => exact fun w => ⟨w, rfl⟩
  | cons v t ih =>
    intro w
    rw [List.foldl_cons]
    by_cases hle : w.width ≤ v.width
    · rw [show selStep (some w) v = some v from by simp [selStep, hle]]
      exact ih v
    · rw [show selStep (some w) v = some w from by simp [selStep, hle]]
      exact ih w

theorem maxByWidth_eq_none (l : List VideoInfo) (h : maxByWidth l = none) :
    l = [] := by
  cases l with
  | nil => rfl
  | cons v t =>
    exfalso
    unfold maxByWidth at h
    rw [List.foldl_cons, show selStep none v = some v from rfl] at h
    obtain ⟨u, hu⟩ := foldl_selStep_some t v
    rw [hu] at h
    cases h

/-- Claim C2 (amended): the selected variant is one of numerically
largest width, but when several variants share the maximal width the one
occurring LATEST in manifest order is selected, not the earliest —
Iterator::max_by_key keeps the later element on ties.  Stated as: the
selection equals the first element of the reversed list attaining the
maximal width (so in particular none exactly for an empty list). -/
theorem c2_selects_last_of_max_width (l : List VideoInfo) :
    maxByWidth l = lastMaxSpec l := by
  induction l using List.reverseRecOn with
  | nil => rfl
  | append_singleton l v ih =>
    have hL : maxByWidth (l ++ [v]) = selStep (maxByWidth l) v := by
      unfold maxByWidth
      rw [List.foldl_append]
      rfl
    rw [hL]
    unfold lastMaxSpec
    rw [List.reverse_append, maxWidthOf_append]
    simp only [List.reverse_cons, List.reverse_nil, List.nil_append,
      List.singleton_append]
    cases hm : maxByWidth l with
    | none =>
      have hl : l = [] := maxByWidth_eq_none l hm
      subst hl
      simp [selStep, maxWidthOf, List.find?]
    | some w =>
      rw [ih] at hm
      have hw : w.width = maxWidthOf l := by
        have h1 : List.find? (fun u => u.width == maxWidthOf l) l.reverse =
            some w := by simpa [lastMaxSpec] using hm
        have h2 := List.find?_some h1
        simpa using h2
      by_cases hle : w.width ≤ v.width
      · have hmax : max (maxWidthOf l) v.width = v.width := by
          rw [Nat.max_eq_right]; omega
        rw [show selStep (some w) v = some v from by simp [selStep, hle], hmax]
        simp [List.find?_cons]
      · have hmax : max (maxWidthOf l) v.width = maxWidthOf l := by
          rw [Nat.max_eq_left]; omega
        have hpv : (v.width == maxWidthOf l) = false := by
          simp only [beq_eq_false_iff_ne, ne_eq]
          omega
        have hls : List.find? (fun u => u.width == maxWidthOf l) l.reverse =
            some w := by simpa [lastMaxSpec] using hm
        rw [show selStep (some w) v = some w from by simp [selStep, hle], hmax]
        simp [List.find?_cons, hpv, hls]

/-- Two distinct variants sharing the maximal width 640. -/
def cexA : VideoInfo :=
  ⟨"https://m/dash/", "\"a\"", "\"avc1\"", 1, .uint 1, 640, 360, [],
   [⟨"s.m4s", 1⟩]⟩

def cexB : VideoInfo :=
  ⟨"https://m/dash/", "\"b\"", "\"avc1\"", 1, .uint 1, 640, 360, [],
   [⟨"s.m4s", 1⟩]⟩

/-- Counterexample to claim C2 as stated: with two distinct variants of
equal (maximal) width, the code selects the SECOND, not the
earliest-occurring one. -/
theorem c2_earliest_tie_refuted :
    cexA.width = cexB.width ∧ cexA ≠ cexB ∧
    maxByWidth [cexA, cexB] = some cexB ∧
    maxByWidth [cexA, cexB] ≠ some cexA := by decide

/-! ## Claim C9 — base64 round trip -/

theorem b64Index_sound (c : Char) (n : Nat) (h : b64Index c = some n) :
    n < 64 ∧ b64Char n = c := by
  unfold b64Index at h
  have hmem := List.mem_of_find?_eq_some h
  have hp := List.find?_some h
  refine ⟨List.mem_range.mp hmem, ?_⟩
  simpa using hp

theorem charsToSex_sound (l : List Char) (ss : List Nat)
    (h : charsToSex l = some ss) :
    ss.map b64Char = l ∧ ∀ x ∈ ss, x < 64 := by
  induction l generalizing ss with
  | nil =>
    unfold charsToSex at h
    cases h
    exact ⟨rfl, by simp⟩
  | cons c rest ih =>
    unfold charsToSex at h
    cases hc : b64Index c with
    | none => rw [hc] at h; cases h
    | some n =>
      rw [hc] at h
      cases hr : charsToSex rest with
      | none => rw [hr] at h; cases h
      | some t =>
        rw [hr] at h
        cases h
        obtain ⟨hmap, hlt⟩ := ih t hr
        obtain ⟨hn, hchar⟩ := b64Index_sound c n hc
        refine ⟨?_, ?_⟩
        · simp [hmap, hchar]
        · intro x hx
          cases hx with
          | head => exact hn
          | tail _ hx => exact hlt x hx

theorem sex_roundtrip : ∀ (ss bs : List Nat), (∀ x ∈ ss, x < 64) →
    sexToBytes ss = some bs → bytesToSex bs = ss
  | [], bs, _, h => by
      unfold sexToBytes at h
      cases h
      rfl
  | [a], bs, _, h => by
      unfold sexToBytes at h
      cases h
  | [a, b], bs, hlt, h => by
      unfold sexToBytes at h
      have ha : a < 64 := hlt a (by simp)
      have hb : b < 64 := hlt b (by simp)
      split at h
      · cases h
        unfold bytesToSex
        have h1 : (a * 4 + b / 16) / 4 = a := by omega
        have h2 : (a * 4 + b / 16) % 4 * 16 = b := by omega
        rw [h1, h2]
      · cases h
  | [a, b, c], bs, hlt, h => by
      unfold sexToBytes at h
      have ha : a < 64 := hlt a (by simp)
      have hb : b < 64 := hlt b (by simp)
      have hc : c < 64 := hlt c (by simp)
      split at h
      · cases h
        unfold bytesToSex
        have h1 : (a * 4 + b / 16) / 4 = a := by omega
        have h2 : (a * 4 + b / 16) % 4 * 16 + (b % 16 * 16 + c / 4) / 16
            = b := by omega
        have h3 : (b % 16 * 16 + c / 4) % 16 * 4 = c := by omega
        rw [h1, h2, h3]
      · cases h
  | a :: b :: c :: d :: rest, bs, hlt, h => by
      unfold sexToBytes at h
      cases hr : sexToBytes rest with
      | none => rw [hr] at h; cases h
      | some t =>
        rw [hr] at h
        simp only [Option.map_some'] at h
        cases h
        have ha : a < 64 := hlt a (by simp)
        have hb : b < 64 := hlt b (by simp)
        have hc : c < 64 := hlt c (by simp)
        have hd : d < 64 := hlt d (by simp)
        have ih := sex_roundtrip rest t
          (fun x hx => hlt x (by simp [hx])) hr
        unfold bytesToSex
        have h1 : (a * 4 + b / 16) / 4 = a := by omega
        have h2 : (a * 4 + b / 16) % 4 * 16 + (b % 16 * 16 + c / 4) / 16
            = b := by omega
        have h3 : (b % 16 * 16 + c / 4) % 16 * 4 + (c % 4 * 64 + d) / 64
            = c := by omega
        have h4 : (c % 4 * 64 + d) % 64 = d := by omega
        rw [h1, h2, h3, h4, ih]

/-- Claim C9: for every string that the decoder accepts (valid standard
alphabet, no padding, canonical trailing bits — exactly the strings
STANDARD_NO_PAD.decode accepts), re-encoding the decoded bytes with
STANDARD_NO_PAD reproduces the original string. -/
theorem c9_base64_roundtrip (s : String) (bs : List Nat)
    (h : b64decodeStr s = some bs) : b64encodeStr bs = s := by
  obtain ⟨l⟩ := s
  unfold b64decodeStr b64decode at h
  cases hc : charsToSex l with
  | none =>
    rw [show (String.mk l).data = l from rfl, hc] at h
    cases h
  | some ss =>
    rw [show (String.mk l).data = l from rfl, hc] at h
    obtain ⟨hmap, hlt⟩ := charsToSex_sound l ss hc
    have hrt := sex_roundtrip ss bs hlt h
    unfold b64encodeStr b64encode
    rw [hrt, hmap]

/-- Witness for C9 at the 4-character block "TWFu". -/
theorem c9_base64_roundtrip_witness :
    b64decodeStr "TWFu" = some [77, 97, 110] ∧
    b64encodeStr [77, 97, 110] = "TWFu" :=
  ⟨by decide, c9_base64_roundtrip "TWFu" [77, 97, 110] (by decide)⟩

/-! ## Claim C4 — ManifestParser failure mode -/

/-- A segment entry has the required url string and size integer. -/
def segEntryOk (s : Json) : Bool :=
  (s.get "url").asStr.isSome && (s.get "size").asU64.isSome

/-- A variant object carries every field extract_video_info requires, of
the right type, with a decodable init_segment: the spec's description of
a well-formed variant. -/
def variantWellFormed (v : Json) : Bool :=
  (v.get "bitrate").asU64.isSome && (v.get "duration").asF64.isSome &&
  (v.get "width").asU64.isSome && (v.get "height").asU64.isSome &&
  (match (v.get "init_segment").asStr with
   | none => false
   | some s => (b64decodeStr s).isSome) &&
  (match (v.get "segments").asArr with
   | none => false
   | some ss => ss.all segEntryOk)

theorem readSegments_isSome (ss : List Json) :
    (readSegments ss).isSome = ss.all segEntryOk := by
  induction ss with
  | nil => rfl
  | cons s rest ih =>
    unfold readSegments
    cases hu : (s.get "url").asStr with
    | none => simp [segEntryOk, hu]
    | some u =>
      cases hn : (s.get "size").asU64 with
      | none => simp [segEntryOk, hu, hn]
      | some n =>
        have hall := ih
        cases hr : readSegments rest with
        | none =>
          rw [hr] at hall
          simp only [Option.isSome_none] at hall
          simp [segEntryOk, hu, hn, ← hall]
        | some t =>
          rw [hr] at hall
          simp only [Option.isSome_some] at hall
          simp [segEntryOk, hu, hn, ← hall]

theorem extractO_isSome (v : Json) (base : Url) :
    (extractVideoInfoO v base).isSome = variantWellFormed v := by
  unfold extractVideoInfoO variantWellFormed
  cases hinit : (v.get "init_segment").asStr with
  | none => simp
  | some s =>
    cases hb : (v.get "bitrate").asU64 with
    | none => simp [hb]
    | some bitrate =>
      cases hd : (v.get "duration").asF64 with
      | none => simp [hb, hd]
      | some dur =>
        cases hw : (v.get "width").asU64 with
        | none => simp [hb, hd, hw]
        | some width =>
          cases hh : (v.get "height").asU64 with
          | none => simp [hb, hd, hw, hh]
          | some height =>
            cases hdec : b64decodeStr s with
            | none => simp [hb, hd, hw, hh, hdec]
            | some init =>
              cases harr : (v.get "segments").asArr with
              | none => simp [hb, hd, hw, hh, hdec, harr]
              | some ss =>
                have hall := readSegments_isSome ss
                cases hrs : readSegments ss with
                | none =>
                  rw [hrs] at hall
                  simp only [Option.isSome_none] at hall
                  simp [hb, hd, hw, hh, hdec, harr, hrs, ← hall]
                | some segs =>
                  rw [hrs] at hall
                  simp only [Option.isSome_some] at hall
                  simp [hb, hd, hw, hh, hdec, harr, hrs, ← hall]

/-- Claim C4: a variant object lacking one of the required fields
(bitrate, duration, width, height, init_segment, segments, or a
segment's url/size), having such a field of the wrong type, or whose
init_segment fails base64 decoding, makes the parser fail with the
InvalidFormat failure mode (the .unwrap() panic aborting the run), and
no other; a well-formed variant never does. -/
theorem c4_malformed_variant_invalid_format (v : Json) (base : Url) :
    (variantWellFormed v = false →
      extract_video_info v base = .error .invalidFormat) ∧
    (variantWellFormed v = true → ∃ i, extract_video_info v base = .ok i) := by
  have h := extractO_isSome v base
  constructor
  · intro hf
    rw [hf] at h
    unfold extract_video_info
    cases ho : extractVideoInfoO v base with
    | none => rfl
    | some i => rw [ho] at h; cases h
  · intro ht
    rw [ht] at h
    unfold extract_video_info
    cases ho : extractVideoInfoO v base with
    | none => rw [ho] at h; cases h
    | some i => exact ⟨i, rfl⟩

/-- Witness for C4: a variant with no fields at all fails as
InvalidFormat; the spec scenario's variant parses. -/
theorem c4_malformed_variant_invalid_format_witness :
    extract_video_info (Json.obj []) dashBase = .error .invalidFormat ∧
    ∃ i, extract_video_info vJson dashBase = .ok i :=
  ⟨(c4_malformed_variant_invalid_format (Json.obj []) dashBase).1 (by decide),
   (c4_malformed_variant_invalid_format vJson dashBase).2 (by decide)⟩

/-! ## Claim C1 — the byte-count contract (code bug) -/

/-- Claim C1 evaluated on the code (the claim itself states the spec's
exact-equality contract; the code compares against size + 1): at declared
size 100, a transfer of exactly 100 bytes is REJECTED with the integrity
error whose message reports observed 100 and expected 100, while a
transfer of 101 bytes is accepted; after the rejected first segment of a
two-segment variant the loop halts — the second segment's bytes never
reach the file, and the partial output (initialization block plus the
rejected segment's bytes) is left as is. -/
theorem c1_count_check_off_by_one :
    (download vInfo fetch100).result = .error (.integrity 100 100) ∧
    errMsg (.integrity 100 100) =
      "Invalid byte count! Read=100, expected=100" ∧
    (download vInfo fetch101).result = .ok () ∧
    (download twoSegVideo fetchTwo).result = .error (.integrity 100 100) ∧
    (download twoSegVideo fetchTwo).file =
      [0, 0, 0] ++ List.replicate 100 7 := by decide

/-! ## Claim C8 — relative URL resolution -/

/-- Claim C8: base_url is resolved as a relative reference against the
manifest's own URL and each segment path as a relative reference against
that base (not by string concatenation): "dash/" against
"https://m/manifest.json" yields "https://m/dash/", and "seg1.m4s"
against that yields "https://m/dash/seg1.m4s"; the scenario manifest
parses to a variant carrying the resolved base, and its download succeeds
against a transport that only answers the fully resolved segment URL. -/
theorem c8_relative_reference_resolution :
    ((urlParse "https://m/manifest.json").bind fun u =>
        urlJoin u "dash/").map urlRender = some "https://m/dash/" ∧
    ((urlParse "https://m/dash/").bind fun u =>
        urlJoin u "seg1.m4s").map urlRender =
      some "https://m/dash/seg1.m4s" ∧
    "https://m/manifest.json" ++ "dash/" ≠ "https://m/dash/" ∧
    get_video_infos manifestDoc "https://m/manifest.json" = .ok [vInfo] ∧
    vInfo.base_url = "https://m/dash/" ∧
    (download vInfo fetch101).result = .ok () := by decide

/-! ## Claims C6 and C7 — the download loop -/

theorem downloadLoop_nil (fetch : String → Except Err (List Nat))
    (base : Url) (prog : Nat) (file : List Nat) :
    downloadLoop fetch base [] prog file = ⟨file, [], .ok ()⟩ := rfl

theorem downloadLoop_cons_joinNone (fetch : String → Except Err (List Nat))
    (base : Url) (seg : Segment) (rest : List Segment) (prog : Nat)
    (file : List Nat) (hj : urlJoin base seg.path = none) :
    downloadLoop fetch base (seg :: rest) prog file =
      ⟨file, [], .error .urlError⟩ := by
  simp [downloadLoop, hj]

theorem downloadLoop_cons_fetchErr (fetch : String → Except Err (List Nat))
    (base : Url) (seg : Segment) (rest : List Segment) (prog : Nat)
    (file : List Nat) (u : Url) (e : Err)
    (hj : urlJoin base seg.path = some u)
    (hf : fetch (urlRender u) = .error e) :
    downloadLoop fetch base (seg :: rest) prog file =
      ⟨file, [], .error e⟩ := by
  simp [downloadLoop, hj, hf]

theorem downloadLoop_cons_badcount (fetch : String → Except Err (List Nat))
    (base : Url) (seg : Segment) (rest : List Segment) (prog : Nat)
    (file : List Nat) (u : Url) (body : List Nat)
    (hj : urlJoin base seg.path = some u)
    (hf : fetch (urlRender u) = .ok body)
    (hc : body.length ≠ seg.size + 1) :
    downloadLoop fetch base (seg :: rest) prog file =
      ⟨file ++ body, [], .error (.integrity body.length seg.size)⟩ := by
  simp [downloadLoop, hj, hf, hc]

theorem downloadLoop_cons_ok (fetch : String → Except Err (List Nat))
    (base : Url) (seg : Segment) (rest : List Segment) (prog : Nat)
    (file : List Nat) (u : Url) (body : List Nat)
    (hj : urlJoin base seg.path = some u)
    (hf : fetch (urlRender u) = .ok body)
    (hc : body.length = seg.size + 1) :
    downloadLoop fetch base (seg :: rest) prog file =
      ⟨(downloadLoop fetch base rest (prog + seg.size) (file ++ body)).file,
       (prog + seg.size) ::
         (downloadLoop fetch base rest (prog + seg.size) (file ++ body)).trace,
       (downloadLoop fetch base rest (prog + seg.size) (file ++ body)).result⟩
    := by
  simp [downloadLoop, hj, hf, hc]

/-- The response bodies the transport yields for a segment list, in
manifest order: the resolved URL of every segment is fetched; none if any
resolution or fetch fails. -/
def fetchedBodies (fetch : String → Except Err (List Nat)) (base : Url) :
    List Segment → Option (List (List Nat))
  | [] => some []
  | seg :: rest =>
    match urlJoin base seg.path with
    | none => none
    | some u =>
      match fetch (urlRender u), fetchedBodies fetch base rest with
      | .ok b, some t => some (b :: t)
      | _, _ => none

theorem downloadLoop_ok_file (fetch : String → Except Err (List Nat))
    (base : Url) :
    ∀ (segs : List Segment) (prog : Nat) (file : List Nat),
      (downloadLoop fetch base segs prog file).result = .ok () →
      ∃ bodies, fetchedBodies fetch base segs = some bodies ∧
        (downloadLoop fetch base segs prog file).file =
          file ++ bodies.flatten := by
  intro segs
  induction segs with
  | nil =>
    intro prog file _
    exact ⟨[], rfl, by simp [downloadLoop_nil]⟩
  | cons seg rest ih =>
    intro prog file h
    cases hj : urlJoin base seg.path with
    | none => rw [downloadLoop_cons_joinNone fetch base seg rest prog file hj] at h; cases h
    | some u =>
      cases hf : fetch (urlRender u) with
      | error e =>
        rw [downloadLoop_cons_fetchErr fetch base seg rest prog file u e hj hf] at h
        cases h
      | ok body =>
        by_cases hc : body.length = seg.size + 1
        · rw [downloadLoop_cons_ok fetch base seg rest prog file u body hj hf hc] at h ⊢
          obtain ⟨t, hfb, hfile⟩ := ih (prog + seg.size) (file ++ body) h
          refine ⟨body :: t, ?_, ?_⟩
          · simp only [fetchedBodies, hj, hf, hfb]
          · simp only [List.flatten_cons]
            rw [hfile]
            simp [List.append_assoc]
        · rw [downloadLoop_cons_badcount fetch base seg rest prog file u body hj hf hc] at h
          cases h

/-- Running totals: the successive values of a counter that starts at p
and is incremented by each list element in turn. -/
def runTotals (p : Nat) : List Nat → List Nat
  | [] => []
  | a :: rest => (p + a) :: runTotals (p + a) rest

/-- The loop's progress trace is the running totals of the declared sizes
of the first k segments, where the first k segments are exactly those
that passed the integrity check (k is all of them iff the loop
succeeded). -/
theorem downloadLoop_trace (fetch : String → Except Err (List Nat))
    (base : Url) :
    ∀ (segs : List Segment) (prog : Nat) (file : List Nat),
      ∃ k, k ≤ segs.length ∧
        (downloadLoop fetch base segs prog file).trace =
          runTotals prog ((segs.take k).map fun s => s.size) ∧
        ((downloadLoop fetch base segs prog file).result = .ok () →
          k = segs.length) := by
  intro segs
  induction segs with
  | nil =>
    intro prog file
    exact ⟨0, le_rfl, by simp [downloadLoop_nil, runTotals], fun _ => rfl⟩
  | cons seg rest ih =>
    intro prog file
    cases hj : urlJoin base seg.path with
    | none =>
      rw [downloadLoop_cons_joinNone fetch base seg rest prog file hj]
      exact ⟨0, Nat.zero_le _, by simp [runTotals], by intro h; cases h⟩
    | some u =>
      cases hf : fetch (urlRender u) with
      | error e =>
        rw [downloadLoop_cons_fetchErr fetch base seg rest prog file u e hj hf]
        exact ⟨0, Nat.zero_le _, by simp [runTotals], by intro h; cases h⟩
      | ok body =>
        by_cases hc : body.length = seg.size + 1
        · rw [downloadLoop_cons_ok fetch base seg rest prog file u body hj hf hc]
          obtain ⟨k, hk, htr, hres⟩ := ih (prog + seg.size) (file ++ body)
          refine ⟨k + 1, by simpa using hk, ?_, ?_⟩
          · simp only [List.take_succ_cons, List.map_cons, runTotals]
            rw [htr]
          · intro h
            have := hres h
            simp [this]
        · rw [downloadLoop_cons_badcount fetch base seg rest prog file u body
            hj hf hc]
          exact ⟨0, Nat.zero_le _, by simp [runTotals], by intro h; cases h⟩

theorem runTotals_chain (p : Nat) (l : List Nat) :
    List.Chain (· ≤ ·) p (runTotals p l) := by
  induction l generalizing p with
  | nil => exact .nil
  | cons a t ih => exact .cons (Nat.le_add_right p a) (ih (p + a))

theorem runTotals_mem_le (p : Nat) (l : List Nat) :
    ∀ x ∈ runTotals p l, x ≤ p + l.sum := by
  induction l generalizing p with
  | nil => simp [runTotals]
  | cons a t ih =>
    intro x hx
    simp only [runTotals, List.mem_cons] at hx
    cases hx with
    | inl h =>
      subst h
      simp only [List.sum_cons]
      omega
    | inr h =>
      have := ih (p + a) x h
      simp only [List.sum_cons]
      omega

theorem runTotals_getLastD (p : Nat) (l : List Nat) :
    (runTotals p l).getLastD p = p + l.sum := by
  induction l generalizing p with
  | nil => simp [runTotals]
  | cons a t ih =>
    simp only [runTotals, List.getLastD_cons]
    rw [ih (p + a)]
    simp only [List.sum_cons]
    omega

theorem sum_take_le_sum (l : List Nat) (k : Nat) :
    (l.take k).sum ≤ l.sum := by
  conv_rhs => rw [← List.take_append_drop k l]
  rw [List.sum_append]
  omega

/-- Claim C7: the progress counter starts at 0, is monotonically
non-decreasing, never exceeds the precomputed total (the sum of the
declared segment sizes, initialization block excluded), advances only for
segments whose integrity check passed — by exactly the declared size of
the verified segment (the code's bar.inc(count - 1) with count =
size + 1) — and on success finishes at the total. -/
theorem c7_progress_accounting (video : VideoInfo)
    (fetch : String → Except Err (List Nat)) :
    List.Chain (· ≤ ·) 0 (download video fetch).trace ∧
    (∀ p ∈ (download video fetch).trace, p ≤ barTotal video) ∧
    (∃ k, k ≤ video.segments.length ∧
      (download video fetch).trace =
        runTotals 0 ((video.segments.take k).map fun s => s.size)) ∧
    ((download video fetch).result = .ok () →
      (download video fetch).trace.getLastD 0 = barTotal video) := by
  unfold download
  cases hp : urlParse video.base_url with
  | none =>
    exact ⟨by simp, by simp, ⟨0, Nat.zero_le _, by simp [runTotals]⟩, by simp⟩
  | some base =>
    obtain ⟨k, hk, htr, hres⟩ :=
      downloadLoop_trace fetch base video.segments 0 video.init_segment
    refine ⟨?_, ?_, ⟨k, hk, htr⟩, ?_⟩
    · rw [htr]
      exact runTotals_chain 0 _
    · rw [htr]
      intro x hx
      have hle := runTotals_mem_le 0 _ x hx
      have hsum : ((video.segments.take k).map fun s => s.size).sum ≤
          barTotal video := by
        unfold barTotal
        rw [List.map_take]
        exact sum_take_le_sum _ k
      omega
    · intro h
      have hkk := hres h
      subst hkk
      rw [htr, List.take_length, runTotals_getLastD]
      simp [barTotal]

/-- Claim C6: on every successful run, the output file holds exactly the
variant's decoded initialization block followed by the fetched bodies of
all its segments in manifest order, nothing else; the destination starts
empty (created/truncated) so nothing precedes the initialization
block. -/
theorem c6_output_bytes (video : VideoInfo)
    (fetch : String → Except Err (List Nat))
    (h : (download video fetch).result = .ok ()) :
    ∃ base bodies, urlParse video.base_url = some base ∧
      fetchedBodies fetch base video.segments = some bodies ∧
      (download video fetch).file = video.init_segment ++ bodies.flatten := by
  unfold download at h ⊢
  cases hp : urlParse video.base_url with
  | none =>
    rw [hp] at h
    simp at h
  | some base =>
    rw [hp] at h
    obtain ⟨bodies, hfb, hfile⟩ :=
      downloadLoop_ok_file fetch base video.segments 0 video.init_segment h
    exact ⟨base, bodies, rfl, hfb, hfile⟩

/-- Witness for C6: the scenario run assembles init block plus the one
segment body. -/
theorem c6_output_bytes_witness :
    ∃ base bodies, urlParse vInfo.base_url = some base ∧
      fetchedBodies fetch101 base vInfo.segments = some bodies ∧
      (download vInfo fetch101).file = vInfo.init_segment ++ bodies.flatten :=
  c6_output_bytes vInfo fetch101 (by decide)

/-- Witness for C7: the scenario run finalizes the counter at its
precomputed total. -/
theorem c7_progress_accounting_witness :
    (download vInfo fetch101).trace.getLastD 0 = barTotal vInfo :=
  (c7_progress_accounting vInfo fetch101).2.2.2 (by decide)

/-! ## Claims C5 and C10 — config-URL extraction -/

/-- The full pattern data-config-url="([^"]+)" matches at position i of
the body with capture val: val is non-empty, quote-free, and position i
starts with the literal, then val, then the closing quote. -/
def matchesAt (s : List Char) (i : Nat) (val : List Char) : Prop :=
  val ≠ [] ∧ '"' ∉ val ∧
    (s.drop i).take (markerLit.length + val.length + 1) =
      markerLit ++ val ++ ['"']

/-- The only possible capture at position i: the quote-free run right
after the literal. -/
def canonVal (s : List Char) (i : Nat) : List Char :=
  ((s.drop i).drop markerLit.length).takeWhile (fun c => c != '"')

/-- The fixed literal part of the pattern occurs at position i. -/
def litAt (s : List Char) (i : Nat) : Prop :=
  (s.drop i).take markerLit.length = markerLit

instance (s : List Char) (i : Nat) (val : List Char) :
    Decidable (matchesAt s i val) :=
  inferInstanceAs (Decidable (_ ∧ _ ∧ _))

instance (s : List Char) (i : Nat) : Decidable (litAt s i) :=
  inferInstanceAs (Decidable (_ = _))

theorem dropLit_iff (ls : List Char) :
    ∀ (s r : List Char), dropLit ls s = some r ↔ s = ls ++ r := by
  induction ls with
  | nil =>
    intro s r
    constructor
    · intro h; cases h; rfl
    · intro h; subst h; rfl
  | cons l t ih =>
    intro s r
    cases s with
    | nil =>
      constructor
      · intro h; cases h
      · intro h; cases h
    | cons c cs =>
      constructor
      · intro h
        unfold dropLit at h
        by_cases hc : c = l
        · rw [if_pos hc] at h
          subst hc
          rw [(ih cs r).mp h]
          rfl
        · rw [if_neg hc] at h
          cases h
      · intro h
        simp only [List.cons_append, List.cons.injEq] at h
        obtain ⟨h1, h2⟩ := h
        unfold dropLit
        rw [if_pos h1]
        exact (ih cs r).mpr h2

theorem take_append_add (a b : List Char) (k : Nat) :
    (a ++ b).take (a.length + k) = a ++ b.take k := by
  induction a with
  | nil => simp
  | cons x t ih =>
    simp only [List.cons_append, List.length_cons]
    rw [Nat.succ_add, List.take_succ_cons, ih]

theorem takeWhile_append_quote (v t : List Char) (hv : '"' ∉ v) :
    (v ++ '"' :: t).takeWhile (fun c => c != '"') = v ∧
    (v ++ '"' :: t).dropWhile (fun c => c != '"') = '"' :: t := by
  induction v with
  | nil => constructor <;> simp
  | cons c cv ih =>
    have hc : (c != '"') = true := by
      simp only [bne_iff_ne, ne_eq]
      intro h
      exact hv (by simp [h])
    have hcv : '"' ∉ cv := fun h => hv (by simp [h])
    obtain ⟨h1, h2⟩ := ih hcv
    constructor
    · simp only [List.cons_append, List.takeWhile_cons, hc, if_true]
      rw [h1]
    · simp only [List.cons_append, List.dropWhile_cons, hc, if_true]
      rw [h2]

theorem matchHead_sound (s : List Char) (val : List Char)
    (h : matchHead s = some val) : matchesAt s 0 val := by
  unfold matchHead at h
  cases hd : dropLit markerLit s with
  | none => rw [hd] at h; cases h
  | some rest =>
    rw [hd] at h
    simp only at h
    have hs : s = markerLit ++ rest := (dropLit_iff markerLit s rest).mp hd
    split at h
    · rename_i tail heq
      split at h
      · cases h
      · rename_i hne
        cases h
        set v := rest.takeWhile (fun c => c != '"') with hv
        have hrest : rest = v ++ '"' :: tail := by
          rw [hv, ← heq]
          exact (List.takeWhile_append_dropWhile _ _).symm
        have hnq : '"' ∉ v := by
          intro hmem
          have := List.mem_takeWhile_imp hmem
          simp at this
        refine ⟨by simpa using hne, hnq, ?_⟩
        rw [List.drop_zero, hs, hrest]
        rw [show markerLit.length + v.length + 1 =
            markerLit.length + (v.length + 1) from by omega]
        rw [take_append_add]
        rw [show (v ++ '"' :: tail).take (v.length + 1) =
            v ++ ('"' :: tail).take 1 from take_append_add v _ 1]
        simp
    · cases h

theorem matchesAt_decompose (s : List Char) (i : Nat) (val : List Char)
    (h : matchesAt s i val) :
    s.drop i = markerLit ++ val ++ '"' ::
      (s.drop i).drop (markerLit.length + val.length + 1) := by
  obtain ⟨-, -, heq⟩ := h
  conv_lhs => rw [← List.take_append_drop
    (markerLit.length + val.length + 1) (s.drop i)]
  rw [heq]
  simp

theorem matchHead_complete (s : List Char) (val : List Char)
    (h : matchesAt s 0 val) : matchHead s = some val := by
  have hd := matchesAt_decompose s 0 val h
  simp only [List.drop_zero] at hd
  obtain ⟨hne, hnq, -⟩ := h
  set tail := s.drop (markerLit.length + val.length + 1) with htail
  have hdl : dropLit markerLit s = some (val ++ '"' :: tail) := by
    apply (dropLit_iff markerLit s _).mpr
    simpa using hd
  unfold matchHead
  rw [hdl]
  simp only
  obtain ⟨h1, h2⟩ := takeWhile_append_quote val tail hnq
  simp only [h1, h2]
  rw [if_neg (by simpa using hne)]

theorem matchesAt_canon (s : List Char) (i : Nat) (val : List Char)
    (h : matchesAt s i val) : val = canonVal s i := by
  have hd := matchesAt_decompose s i val h
  obtain ⟨-, hnq, -⟩ := h
  unfold canonVal
  rw [hd]
  rw [show (markerLit ++ val ++ '"' :: ((s.drop i).drop
      (markerLit.length + val.length + 1))) =
    markerLit ++ (val ++ '"' :: ((s.drop i).drop
      (markerLit.length + val.length + 1))) from by simp]
  rw [List.drop_left]
  exact ((takeWhile_append_quote val _ hnq).1).symm

theorem matchesAt_lt_length (s : List Char) (i : Nat) (val : List Char)
    (h : matchesAt s i val) : i < s.length := by
  obtain ⟨-, -, heq⟩ := h
  by_contra hge
  push_neg at hge
  rw [List.drop_eq_nil_of_le hge] at heq
  have := congrArg List.length heq
  have hm : markerLit.length = 17 := by decide
  simp at this
  omega

theorem findConfigUrl_some_of :
    ∀ (s : List Char) (i : Nat) (val : List Char),
      matchesAt s i val → (∀ j, j < i → ∀ w, ¬ matchesAt s j w) →
      findConfigUrl s = some val := by
  intro s
  induction s with
  | nil =>
    intro i val h _
    exact absurd (matchesAt_lt_length [] i val h) (by simp)
  | cons c rest ih =>
    intro i val h hmin
    cases i with
    | zero =>
      have := matchHead_complete (c :: rest) val h
      unfold findConfigUrl
      rw [this]
    | succ i =>
      have h0 : matchHead (c :: rest) = none := by
        cases hm : matchHead (c :: rest) with
        | none => rfl
        | some w =>
          exact absurd (matchHead_sound _ w hm)
            (hmin 0 (Nat.succ_pos i) w)
      unfold findConfigUrl
      rw [h0]
      apply ih i val h
      intro j hj w hw
      exact hmin (j + 1) (Nat.succ_lt_succ hj) w hw

theorem findConfigUrl_none_of :
    ∀ (s : List Char), (∀ j w, ¬ matchesAt s j w) →
      findConfigUrl s = none := by
  intro s
  induction s with
  | nil => intro _; rfl
  | cons c rest ih =>
    intro hno
    have h0 : matchHead (c :: rest) = none := by
      cases hm : matchHead (c :: rest) with
      | none => rfl
      | some w => exact absurd (matchHead_sound _ w hm) (hno 0 w)
    unfold findConfigUrl
    rw [h0]
    exact ih fun j w hw => hno (j + 1) w hw

/-- Claim C5: for every body with at least one marker
data-config-url="X" (X non-empty, as the pattern requires), the function
returns the HTML-entity-decoded value of the leftmost such X — the
hypotheses say X matches at position i and no position to the left of i
carries any match; for every body with no marker at all, it returns the
NotFound error. -/
theorem c5_config_extraction (s : List Char) :
    (∀ i val, matchesAt s i val →
      (∀ j, j < i → ¬ matchesAt s j (canonVal s j)) →
      get_config_url s = .ok (decodeHtmlEntities val)) ∧
    ((∀ j, j < s.length → ¬ matchesAt s j (canonVal s j)) →
      get_config_url s = .error .notFound) := by
  constructor
  · intro i val h hmin
    have hfind := findConfigUrl_some_of s i val h ?_
    · unfold get_config_url
      rw [hfind]
    · intro j hj w hw
      have hc := matchesAt_canon s j w hw
      rw [hc] at hw
      exact hmin j hj hw
  · intro hall
    have hfind := findConfigUrl_none_of s ?_
    · unfold get_config_url
      rw [hfind]
    · intro j w hw
      have hlt := matchesAt_lt_length s j w hw
      have hc := matchesAt_canon s j w hw
      rw [hc] at hw
      exact hall j hlt hw

/-- Claim C10: a body whose only occurrences of the marker literal are
immediately followed by the closing quote (empty attribute value) yields
the NotFound error with the message "Did not find video config url!":
the capture group [^"]+ needs at least one character, so an empty-valued
marker counts as absent. -/
theorem c10_empty_value_marker (s : List Char)
    (hsome : ∃ i, i < s.length ∧ litAt s i)
    (hall : ∀ i, i < s.length → litAt s i →
      (s.drop (i + markerLit.length)).head? = some '"') :
    get_config_url s = .error .notFound ∧
    errMsg .notFound = "Did not find video config url!" := by
  refine ⟨?_, rfl⟩
  have hfind := findConfigUrl_none_of s ?_
  · unfold get_config_url
    rw [hfind]
  · intro j w hw
    have hlt := matchesAt_lt_length s j w hw
    obtain ⟨hne, hnq, heq⟩ := hw
    have hlit : litAt s j := by
      unfold litAt
      have hmin : min markerLit.length
          (markerLit.length + w.length + 1) = markerLit.length := by omega
      have ht : (s.drop j).take markerLit.length =
          ((s.drop j).take (markerLit.length + w.length + 1)).take
            markerLit.length := by
        rw [List.take_take, hmin]
      rw [ht, heq]
      rw [show markerLit ++ w ++ ['"'] = markerLit ++ (w ++ ['"'])
        from by simp]
      exact List.take_left _ _
    have hhead := hall j hlt hlit
    have hdec := matchesAt_decompose s j w ⟨hne, hnq, heq⟩
    have hdrop : (s.drop j).drop markerLit.length =
        w ++ '"' :: (s.drop j).drop (markerLit.length + w.length + 1) := by
      conv_lhs => rw [hdec]
      rw [show markerLit ++ w ++ '"' :: ((s.drop j).drop
          (markerLit.length + w.length + 1)) =
        markerLit ++ (w ++ '"' :: ((s.drop j).drop
          (markerLit.length + w.length + 1))) from by simp]
      exact List.drop_left _ _
    have hconv : s.drop (j + markerLit.length) =
        (s.drop j).drop markerLit.length := by
      rw [List.drop_drop, Nat.add_comm]
    rw [hconv, hdrop] at hhead
    cases w with
    | nil => exact hne rfl
    | cons c w2 =>
      simp only [List.cons_append, List.head?_cons, Option.some.injEq]
        at hhead
      exact absurd (by simp [hhead]) hnq

/-- Witness for C5 on the spec's scenario body: the &amp; in the captured
value decodes to &. -/
theorem c5_config_extraction_witness :
    get_config_url body1 = .ok (("https://x/cfg?a=1&b=2").data) := by
  have h := (c5_config_extraction body1).1
    5 (("https://x/cfg?a=1&amp;b=2").data) (by decide) (by decide)
  rw [h]
  decide

/-- Witness for C10 on a body whose single marker is empty-valued. -/
theorem c10_empty_value_marker_witness :
    get_config_url body2 = .error .notFound ∧
    errMsg .notFound = "Did not find video config url!" :=
  c10_empty_value_marker body2 ⟨5, by decide, by decide⟩ (by decide)
